import Mathlib

/-!
Shallow embedding of the wgpu-tauri overlay experiment
(src/src-tauri/src/main.rs and src/src-tauri/src/overlay/{mod,macos,windows}.rs).

Conventions of the embedding:
* `u32` values are `Nat` (with saturation made explicit where a Rust `as`
  cast from `f64` occurs), `i32` values are `Int` (with two's-complement
  wrap-around made explicit where an `i32` addition occurs — the
  release-profile semantics of `+`).
* `f64` arithmetic in the Resized handler is modelled exactly over `ℚ`
  (the inputs are `u32` values, which `f64` represents exactly; the literal
  constants `0.3`, `0.1`, `2.0` are modelled by the rationals they denote).
* Native side effects (Objective-C `msg_send`, tao `set_outer_position` /
  `set_inner_size`) are modelled as updates to an explicit world record,
  plus an append-only log of the dispatched native commands where a claim
  is about whether a dispatch happens at all.
* Rust panics (`expect`, `unimplemented!`) are modelled with `Except`.
-/

namespace WgpuTauri

/-- `tauri::PhysicalPosition<i32>` — a position in physical pixels. -/
structure PhysicalPosition where
  x : Int
  y : Int
deriving DecidableEq

/-- `tauri::LogicalPosition<f64>` — a DPI-scaled position (coordinates over ℚ). -/
structure LogicalPosition where
  x : ℚ
  y : ℚ
deriving DecidableEq

/-- `tauri::Position` — either physical or logical. -/
inductive Position where
  | physical (p : PhysicalPosition)
  | logical (p : LogicalPosition)
deriving DecidableEq

/-- `tauri::PhysicalSize<u32>` — a size in physical pixels. -/
structure PhysicalSize where
  width : Nat
  height : Nat
deriving DecidableEq

/-- `tauri::LogicalSize<f64>` — a DPI-scaled size (components over ℚ). -/
structure LogicalSize where
  width : ℚ
  height : ℚ
deriving DecidableEq

/-- `tauri::Size` — either physical or logical. -/
inductive Size where
  | physical (s : PhysicalSize)
  | logical (s : LogicalSize)
deriving DecidableEq

/-- Truncation toward zero of a rational, the rounding a Rust `as` cast
from `f64` to an integer type performs before saturating. -/
def ratTrunc (q : ℚ) : Int :=
  if 0 ≤ q then ⌊q⌋ else ⌈q⌉

/-- Rust `as u32` applied to an `f64` value: truncate toward zero and
saturate to `[0, 2^32 − 1]`. -/
def f64AsU32 (q : ℚ) : Nat :=
  min (ratTrunc q).toNat (2 ^ 32 - 1)

/-- Rust `as i32` applied to an `f64` value: truncate toward zero and
saturate to `[−2^31, 2^31 − 1]`. -/
def f64AsI32 (q : ℚ) : Int :=
  max (-(2 ^ 31)) (min (ratTrunc q) (2 ^ 31 - 1))

/-- Two's-complement wrap-around into the `i32` range, the release-profile
semantics of Rust `i32` addition. -/
def wrap32 (z : Int) : Int :=
  (z + 2 ^ 31) % 2 ^ 32 - 2 ^ 31

/-- `i32` addition (wrapping). -/
def i32add (a b : Int) : Int :=
  wrap32 (a + b)

/-! ## GPU Surface (`State`, main.rs:246-355) -/

/-- `wgpu::PresentMode` — only `Fifo` is used by the program. -/
inductive PresentMode where
  | fifo
  | other (id : Nat)
deriving DecidableEq

/-- `wgpu::TextureUsages` — only `RENDER_ATTACHMENT` is used by the program. -/
inductive TextureUsages where
  | renderAttachment
  | other (id : Nat)
deriving DecidableEq

/-- `wgpu::SurfaceConfiguration` (main.rs:282-288). The pixel format is the
adapter-negotiated preferred format, opaque to this core; it is modelled by
a `Nat` code. -/
structure SurfaceConfiguration where
  usage : TextureUsages
  format : Nat
  width : Nat
  height : Nat
  present_mode : PresentMode
deriving DecidableEq

/-- `State` (main.rs:246-252): the GPU-surface state. The `surface`,
`device` and `queue` handles are opaque resources; they are modelled by
`Nat` identifiers that no operation of the core changes. -/
structure State where
  surface : Nat
  device : Nat
  queue : Nat
  config : SurfaceConfiguration
  size : PhysicalSize
deriving DecidableEq

namespace State

/-- `State::new` (main.rs:255-300): after adapter/device negotiation
(external, out of scope) the surface is configured unconditionally with
`initial_size`; `format` stands for the negotiated preferred format and
`ids` for the negotiated surface/device/queue handles. -/
def new (ids : Nat × Nat × Nat) (format : Nat) (size : PhysicalSize) : State :=
  { surface := ids.1
    device := ids.2.1
    queue := ids.2.2
    config :=
      { usage := TextureUsages.renderAttachment
        format := format
        width := size.width
        height := size.height
        present_mode := PresentMode.fifo }
    size := size }

/-- `State::resize` (main.rs:302-309): applies `new_size` to `size` and to
the configured width/height, and reconfigures the surface, only when both
components are strictly positive; otherwise nothing is touched. -/
def resize (s : State) (new_size : PhysicalSize) : State :=
  if 0 < new_size.width ∧ 0 < new_size.height then
    { s with
      size := new_size
      config := { s.config with width := new_size.width, height := new_size.height } }
  else
    s

end State

/-- `wgpu::SurfaceError` — the recoverable failures `render()` can return. -/
inductive SurfaceError where
  | timeout
  | outdated
  | lost
  | outOfMemory
deriving DecidableEq

/-- The result of one `State::render` call (main.rs:318-354): `Ok(())` or a
`wgpu::SurfaceError`. -/
def RenderResult : Type := Except SurfaceError Unit

/-- Whether the render thread is still looping or its panic unwound. -/
inductive LoopStatus where
  | running
  | panicked
deriving DecidableEq

/-- The render thread (main.rs:426-433): an endless loop running
`state.lock().unwrap().render().expect("render failed")` then sleeping
15 ms. Modelled over the finite stream of results the successive `render()`
calls produce: each `Ok` is followed by the next iteration, while the
`expect` on the first `Err` panics and terminates the thread. -/
def renderThread : List RenderResult → LoopStatus
  | [] => LoopStatus.running
  | Except.ok _ :: rest => renderThread rest
  | Except.error _ :: _ => LoopStatus.panicked

/-! ## Geometry Policy (the `Resized` arm of the host event handler,
main.rs:399-421) -/

/-- The geometry the `Resized` handler computes and commits
(main.rs:399-421): `f64` arithmetic modelled exactly over `ℚ`, with the
Rust `as u32` / `as i32` casts of the results made explicit. Returns the
committed (overlay size, overlay origin). -/
def resizedGeometry (size : PhysicalSize) : PhysicalSize × PhysicalPosition :=
  let overlay_width : ℚ := (size.width : ℚ) * (3 / 10)
  let overlay_height : ℚ := (size.height : ℚ) * (1 / 10)
  let overlay_y : Int := 100
  let x : ℚ := ((size.width : ℚ) - overlay_width) / 2
  let y : ℚ := (overlay_y : ℚ)
  let overlay_size : PhysicalSize :=
    { width := f64AsU32 overlay_width, height := f64AsU32 overlay_height }
  (overlay_size, { x := f64AsI32 x, y := f64AsI32 y })

/-! ## Owned-top-level variant (`WindowsOverlayView`, overlay/windows.rs) -/

/-- The externally observable state of the owned tao overlay window: the
last requested outer position and inner size.  The window is created at
logical position (30, 30) with logical inner size (200, 200)
(overlay/windows.rs:90-97). -/
structure TaoWindow where
  outer_position : Position
  inner_size : Size
deriving DecidableEq

/-- The world of the owned-top-level variant: the `WindowsOverlayView`
fields `parent_pos` and `last_origin` (overlay/windows.rs:15-19), plus
whether the `Weak` reference still upgrades (`alive` — the native window
has not been destroyed; destruction is an external event, so no operation
of the view changes it) and the native window state. -/
structure WinWorld where
  alive : Bool
  parent_pos : Position
  last_origin : Position
  window : TaoWindow
deriving DecidableEq

namespace WinWorld

/-- `WindowsOverlayView::set_origin` (overlay/windows.rs:37-53): when the
weak reference upgrades, store the new origin, translate it by the parent
position — reaching `unimplemented!` unless both are physical — and apply
the translated position to the native window.  When the window is gone,
do nothing. -/
def set_origin (w : WinWorld) (pos : Position) : Except String WinWorld :=
  if w.alive then
    match pos, w.parent_pos with
    | Position.physical origin, Position.physical parent =>
        Except.ok
          { w with
            last_origin := Position.physical origin
            window :=
              { w.window with
                outer_position :=
                  Position.physical
                    { x := i32add origin.x parent.x, y := i32add origin.y parent.y } } }
    | _, _ => Except.error "set_origin does not support Logical positions yet"
  else
    Except.ok w

/-- `WindowsOverlayView::set_parent_position` (overlay/windows.rs:32-35):
store the new parent position, then re-apply the stored origin through
`set_origin`. -/
def set_parent_position (w : WinWorld) (pos : Position) : Except String WinWorld :=
  set_origin { w with parent_pos := pos } { w with parent_pos := pos }.last_origin

/-- `WindowsOverlayView::set_size` (overlay/windows.rs:55-68): when the
weak reference upgrades, apply the size (physical or logical) to the
native window; otherwise do nothing.  Stored positions are untouched. -/
def set_size (w : WinWorld) (size : Size) : Except String WinWorld :=
  if w.alive then
    Except.ok { w with window := { w.window with inner_size := size } }
  else
    Except.ok w

end WinWorld

/-- One call on the owned-top-level overlay handle. -/
inductive WinOp where
  | setParentPosition (p : Position)
  | setOrigin (p : Position)
  | setSize (s : Size)
deriving DecidableEq

/-- Run a sequence of handle calls, stopping at the first panic. -/
def runWinOps : WinWorld → List WinOp → Except String WinWorld
  | w, [] => Except.ok w
  | w, WinOp.setParentPosition p :: rest =>
      match w.set_parent_position p with
      | Except.ok w2 => runWinOps w2 rest
      | Except.error e => Except.error e
  | w, WinOp.setOrigin p :: rest =>
      match w.set_origin p with
      | Except.ok w2 => runWinOps w2 rest
      | Except.error e => Except.error e
  | w, WinOp.setSize s :: rest =>
      match w.set_size s with
      | Except.ok w2 => runWinOps w2 rest
      | Except.error e => Except.error e

/-- The most recently supplied parent position over a call sequence,
defaulting to the stored one. -/
def lastParentPos (init : Position) : List WinOp → Position
  | [] => init
  | WinOp.setParentPosition p :: rest => lastParentPos p rest
  | _ :: rest => lastParentPos init rest

/-- The most recently supplied local origin over a call sequence,
defaulting to the stored one. -/
def lastOriginPos (init : Position) : List WinOp → Position
  | [] => init
  | WinOp.setOrigin p :: rest => lastOriginPos p rest
  | _ :: rest => lastOriginPos init rest

/-- Whether a call sequence contains a position-affecting call
(`set_parent_position` or `set_origin`). -/
def hasPosOp : List WinOp → Prop
  | [] => False
  | WinOp.setParentPosition _ :: _ => True
  | WinOp.setOrigin _ :: _ => True
  | WinOp.setSize _ :: rest => hasPosOp rest

instance : DecidablePred hasPosOp := by
  intro ops
  induction ops with
  | nil => exact isFalse (fun h => h)
  | cons op rest ih =>
      cases op with
      | setParentPosition p => exact isTrue trivial
      | setOrigin p => exact isTrue trivial
      | setSize s => exact ih

/-- A position carried by an `i32` physical pair. -/
def Position.isPhysical : Position → Prop
  | Position.physical _ => True
  | Position.logical _ => False

instance : DecidablePred Position.isPhysical := by
  intro p
  cases p with
  | physical q => exact isTrue trivial
  | logical q => exact isFalse (fun h => h)

/-- The position argument of a call, when it has one. -/
def WinOp.posArg : WinOp → Option Position
  | WinOp.setParentPosition p => some p
  | WinOp.setOrigin p => some p
  | WinOp.setSize _ => none

/-- Every position supplied by the call sequence is physical. -/
def physicalOps (ops : List WinOp) : Prop :=
  ∀ op ∈ ops, ∀ p, WinOp.posArg op = some p → p.isPhysical

/-- The fresh `WindowsOverlayView` (overlay/windows.rs:22-28): both stored
positions start at physical (0, 0); the native window was just created at
logical position (30, 30) with logical inner size (200, 200)
(overlay/windows.rs:90-97). -/
def winInit : WinWorld :=
  { alive := true
    parent_pos := Position.physical { x := 0, y := 0 }
    last_origin := Position.physical { x := 0, y := 0 }
    window :=
      { outer_position := Position.logical { x := 30, y := 30 }
        inner_size := Size.logical { width := 200, height := 200 } } }

/-! ## Embedded-subview variant (`MacosOverlayView`, overlay/macos.rs) -/

/-- The frame of the overlay `NSView`, in the host window's local
coordinates (f64 components over ℚ). -/
structure NSViewFrame where
  originX : ℚ
  originY : ℚ
  sizeWidth : ℚ
  sizeHeight : ℚ
deriving DecidableEq

/-- A message dispatched to the stored `ns_view` pointer. -/
inductive MacMsg where
  | setFrameOrigin (x y : ℚ)
  | setFrameSize (width height : ℚ)
deriving DecidableEq

/-- The world of the embedded-subview variant: whether the environment has
destroyed the native view (the `MacosOverlayView` code never consults
this), the view's frame, and the log of messages dispatched to the stored
`ns_view` pointer. -/
structure MacWorld where
  viewDestroyed : Bool
  frame : NSViewFrame
  msgSends : List MacMsg
deriving DecidableEq

namespace MacWorld

/-- `MacosOverlayView::set_parent_position` (overlay/macos.rs:26-28):
"not needed on macOS" — a no-op. -/
def set_parent_position (w : MacWorld) (_ : Position) : MacWorld :=
  w

/-- `MacosOverlayView::set_origin` (overlay/macos.rs:30-38): convert the
position to f64 coordinates and unconditionally dispatch `setFrameOrigin`
to the stored view pointer. -/
def set_origin (w : MacWorld) (pos : Position) : MacWorld :=
  let xy : ℚ × ℚ :=
    match pos with
    | Position.physical p => ((p.x : ℚ), (p.y : ℚ))
    | Position.logical p => (p.x, p.y)
  { w with
    frame := { w.frame with originX := xy.1, originY := xy.2 }
    msgSends := w.msgSends ++ [MacMsg.setFrameOrigin xy.1 xy.2] }

/-- `MacosOverlayView::set_size` (overlay/macos.rs:40-52): both the width
and the height dispatched in `setFrameSize` are taken from `size.width`
(in both the physical and the logical arm); the height component of the
argument is never read. -/
def set_size (w : MacWorld) (size : Size) : MacWorld :=
  let wh : ℚ × ℚ :=
    match size with
    | Size.physical s => ((s.width : ℚ), (s.width : ℚ))
    | Size.logical s => (s.width, s.width)
  { w with
    frame := { w.frame with sizeWidth := wh.1, sizeHeight := wh.2 }
    msgSends := w.msgSends ++ [MacMsg.setFrameSize wh.1 wh.2] }

end MacWorld

/-- The fresh embedded overlay view (overlay/macos.rs:74-77): created with
frame origin (100, 0) and frame size (200, 200), alive, no messages sent
yet. -/
def macInit : MacWorld :=
  { viewDestroyed := false
    frame := { originX := 100, originY := 0, sizeWidth := 200, sizeHeight := 200 }
    msgSends := [] }

/-! ## Position Synchronizer (the host window event handler,
main.rs:393-423) -/

/-- A host window event the synchronizer subscribes to. -/
inductive HostEvent where
  | moved (pos : PhysicalPosition)
  | resized (size : PhysicalSize)
deriving DecidableEq

/-- The synchronizer driving the embedded-subview variant plus the GPU
surface (main.rs:393-423): `Moved` forwards the physical position through
`set_parent_position`; `Resized` computes the geometry and commits it via
`set_origin`, `set_size`, and `State::resize`. -/
def macOnWindowEvent (overlay : MacWorld) (gpu : State) :
    HostEvent → MacWorld × State
  | HostEvent.moved pos =>
      (overlay.set_parent_position (Position.physical pos), gpu)
  | HostEvent.resized size =>
      let g := resizedGeometry size
      let o1 := overlay.set_origin (Position.physical g.2)
      let o2 := o1.set_size (Size.physical g.1)
      (o2, gpu.resize g.1)

/-- `macOnWindowEvent` folded over an event sequence. -/
def macRunEvents : MacWorld × State → List HostEvent → MacWorld × State
  | st, [] => st
  | (overlay, gpu), e :: rest => macRunEvents (macOnWindowEvent overlay gpu e) rest

/-- The synchronizer driving the owned-top-level variant plus the GPU
surface: the same handler (main.rs:393-423) against `WinWorld`. -/
def winOnWindowEvent (overlay : WinWorld) (gpu : State) :
    HostEvent → Except String (WinWorld × State)
  | HostEvent.moved pos =>
      match overlay.set_parent_position (Position.physical pos) with
      | Except.ok o2 => Except.ok (o2, gpu)
      | Except.error e => Except.error e
  | HostEvent.resized size =>
      let g := resizedGeometry size
      match overlay.set_origin (Position.physical g.2) with
      | Except.ok o1 =>
          match o1.set_size (Size.physical g.1) with
          | Except.ok o2 => Except.ok (o2, gpu.resize g.1)
          | Except.error e => Except.error e
      | Except.error e => Except.error e

/-- `winOnWindowEvent` folded over an event sequence. -/
def winRunEvents : WinWorld × State → List HostEvent → Except String (WinWorld × State)
  | st, [] => Except.ok st
  | (overlay, gpu), e :: rest =>
      match winOnWindowEvent overlay gpu e with
      | Except.ok st2 => winRunEvents st2 rest
      | Except.error e => Except.error e

/-! ## Auxiliary definitions used by the statements -/

/-- The width component a `tauri::Size` carries, as the f64 value
`MacosOverlayView::set_size` extracts it. -/
def Size.widthQ : Size → ℚ
  | Size.physical s => (s.width : ℚ)
  | Size.logical s => s.width

/-- A physical position whose coordinates are small enough that the sum of
any two of them stays inside the `i32` range. -/
def Position.isSmallPhysical : Position → Prop
  | Position.physical p => p.x.natAbs < 2 ^ 30 ∧ p.y.natAbs < 2 ^ 30
  | Position.logical _ => False

instance : DecidablePred Position.isSmallPhysical := by
  intro p
  cases p with
  | physical q => exact instDecidableAnd
  | logical q => exact instDecidableFalse

/-- Every position argument the call carries is physical. -/
def WinOp.physicalArgs : WinOp → Prop
  | WinOp.setParentPosition p => p.isPhysical
  | WinOp.setOrigin p => p.isPhysical
  | WinOp.setSize _ => True

instance : DecidablePred WinOp.physicalArgs := by
  intro op
  cases op with
  | setParentPosition p => exact inferInstanceAs (Decidable p.isPhysical)
  | setOrigin p => exact inferInstanceAs (Decidable p.isPhysical)
  | setSize s => exact instDecidableTrue

/-- The call is `set_parent_position` or `set_origin` with a small
physical position. -/
def WinOp.smallPosOp : WinOp → Prop
  | WinOp.setParentPosition p => p.isSmallPhysical
  | WinOp.setOrigin p => p.isSmallPhysical
  | WinOp.setSize _ => False

instance : DecidablePred WinOp.smallPosOp := by
  intro op
  cases op with
  | setParentPosition p => exact inferInstanceAs (Decidable p.isSmallPhysical)
  | setOrigin p => exact inferInstanceAs (Decidable p.isSmallPhysical)
  | setSize s => exact instDecidableFalse

/-- What a call sequence does to a `WinWorld` whose native window is gone:
only `set_parent_position` still writes its stored field; everything else
is untouched. -/
def deadRun (w : WinWorld) : List WinOp → WinWorld
  | [] => w
  | WinOp.setParentPosition p :: rest => deadRun { w with parent_pos := p } rest
  | WinOp.setOrigin _ :: rest => deadRun w rest
  | WinOp.setSize _ :: rest => deadRun w rest

/-- A sequence of `State::resize` calls after creation. -/
def runResizes (s : State) (ops : List PhysicalSize) : State :=
  ops.foldl State.resize s

/-- The last size that passed the `resize` guard, defaulting to the size
the surface was created with. -/
def lastAppliedSize (init : PhysicalSize) (ops : List PhysicalSize) : PhysicalSize :=
  ops.foldl (fun acc ns => if 0 < ns.width ∧ 0 < ns.height then ns else acc) init

/-! # Helper lemmas -/

theorem ratTrunc_natCast_div (a b : ℕ) :
    ratTrunc ((a : ℚ) / (b : ℚ)) = ((a / b : ℕ) : ℤ) := by
  unfold ratTrunc
  rw [if_pos (by positivity), Rat.floor_natCast_div_natCast]
  exact (Int.natCast_div a b).symm

theorem f64AsU32_natCast_div (a b : ℕ) (hle : a / b ≤ 2 ^ 32 - 1) :
    f64AsU32 ((a : ℚ) / (b : ℚ)) = a / b := by
  unfold f64AsU32
  rw [ratTrunc_natCast_div, Int.toNat_natCast]
  omega

theorem f64AsI32_natCast_div (a b : ℕ) (hle : a / b ≤ 2 ^ 31 - 1) :
    f64AsI32 ((a : ℚ) / (b : ℚ)) = ((a / b : ℕ) : ℤ) := by
  unfold f64AsI32
  have h0 : (0 : ℤ) ≤ ((a / b : ℕ) : ℤ) := Int.natCast_nonneg _
  have h1 : ((a / b : ℕ) : ℤ) ≤ 2 ^ 31 - 1 := by
    calc ((a / b : ℕ) : ℤ) ≤ ((2 ^ 31 - 1 : ℕ) : ℤ) := Nat.cast_le.mpr hle
      _ = 2 ^ 31 - 1 := by norm_num
  rw [ratTrunc_natCast_div, min_eq_left h1,
    max_eq_right (le_trans (by norm_num) h0)]

/-- The closed form of the committed geometry: all three `f64`
computations truncate to the corresponding exact integer divisions. -/
theorem resizedGeometry_eq (w h : ℕ) (hw32 : w < 2 ^ 32) (hh32 : h < 2 ^ 32) :
    resizedGeometry ⟨w, h⟩ =
      (⟨3 * w / 10, h / 10⟩, ⟨((7 * w / 20 : ℕ) : ℤ), 100⟩) := by
  have e1 : ((w : ℚ)) * (3 / 10) = ((3 * w : ℕ) : ℚ) / ((10 : ℕ) : ℚ) := by
    push_cast
    ring
  have e2 : ((h : ℚ)) * (1 / 10) = ((h : ℕ) : ℚ) / ((10 : ℕ) : ℚ) := by
    push_cast
    ring
  have e3 : (((w : ℚ)) - ((3 * w : ℕ) : ℚ) / ((10 : ℕ) : ℚ)) / 2
      = ((7 * w : ℕ) : ℚ) / ((20 : ℕ) : ℚ) := by
    push_cast
    field_simp
    ring
  have e4 : (((100 : ℤ) : ℚ)) = ((100 : ℕ) : ℚ) / ((1 : ℕ) : ℚ) := by
    norm_num
  simp only [resizedGeometry, e1, e2, e3, e4]
  rw [f64AsU32_natCast_div (3 * w) 10 (by omega),
    f64AsU32_natCast_div h 10 (by omega),
    f64AsI32_natCast_div (7 * w) 20 (by omega),
    f64AsI32_natCast_div 100 1 (by norm_num)]
  norm_num

theorem resizedGeometry_1000_800 :
    resizedGeometry ⟨1000, 800⟩ = (⟨300, 80⟩, ⟨350, 100⟩) := by
  rw [resizedGeometry_eq 1000 800 (by norm_num) (by norm_num)]
  norm_num

theorem resizedGeometry_1001_801 :
    resizedGeometry ⟨1001, 801⟩ = (⟨300, 80⟩, ⟨350, 100⟩) := by
  rw [resizedGeometry_eq 1001 801 (by norm_num) (by norm_num)]
  norm_num

/-! # Claim C1 -/

/-- C1 (amended): for every host size (w, h) with 0 < w, h < 2^32, the
`Resized` handler commits overlay size (⌊0.3·w⌋, ⌊0.1·h⌋) = (3w/10, h/10)
and overlay origin (⌊(w − 0.3·w)/2⌋, 100) = (7w/20, 100) in host-local
coordinates (integer divisions); in particular host (1000, 800) yields
overlay size (300, 80) and origin (350, 100). -/
theorem geometry_policy_truncates (w h : ℕ) (_hw : 0 < w) (_hh : 0 < h)
    (hw32 : w < 2 ^ 32) (hh32 : h < 2 ^ 32) :
    resizedGeometry ⟨w, h⟩ =
        (⟨3 * w / 10, h / 10⟩, ⟨((7 * w / 20 : ℕ) : ℤ), 100⟩) ∧
      resizedGeometry ⟨1000, 800⟩ = (⟨300, 80⟩, ⟨350, 100⟩) :=
  ⟨resizedGeometry_eq w h hw32 hh32, resizedGeometry_1000_800⟩

theorem geometry_policy_truncates_witness :
    (0 < 1000 ∧ 0 < 800 ∧ 1000 < 2 ^ 32 ∧ 800 < 2 ^ 32) ∧
      (resizedGeometry ⟨1000, 800⟩ =
          (⟨3 * 1000 / 10, 800 / 10⟩, ⟨((7 * 1000 / 20 : ℕ) : ℤ), 100⟩) ∧
        resizedGeometry ⟨1000, 800⟩ = (⟨300, 80⟩, ⟨350, 100⟩)) :=
  ⟨by decide,
    geometry_policy_truncates 1000 800 (by decide) (by decide) (by decide) (by decide)⟩

/-- C1 as stated is false: at host (1001, 801) the handler commits the
truncated integers (300, 80) and 350, not the exact values
0.3·1001 = 300.3, 0.1·801 = 80.1 and (1001 − 300.3)/2 = 350.35. -/
theorem geometry_policy_exact_counterexample :
    ¬ ((((resizedGeometry ⟨1001, 801⟩).1.width : ℚ) = (3 / 10) * 1001 ∧
        ((resizedGeometry ⟨1001, 801⟩).1.height : ℚ) = (1 / 10) * 801) ∧
       (((resizedGeometry ⟨1001, 801⟩).2.x : ℚ) = (1001 - (3 / 10) * 1001) / 2 ∧
        (resizedGeometry ⟨1001, 801⟩).2.y = 100)) := by
  rw [resizedGeometry_1001_801]
  intro hcl
  rcases hcl with ⟨⟨h1, -⟩, -⟩
  norm_num at h1

/-! # Claim C2 -/

/-- C2 (amended): the render loop survives exactly the failure-free
prefixes — it is still running after a sequence of `render()` outcomes iff
none of them was a failure; equivalently, the first `render()` failure
panics the render thread (`expect("render failed")`) and terminates the
loop. -/
theorem render_loop_survives_iff_no_failure (rs : List RenderResult) :
    renderThread rs = LoopStatus.running ↔ ∀ r ∈ rs, r = Except.ok () := by
  induction rs with
  | nil => simp [renderThread]
  | cons r rest ih =>
      cases r with
      | ok u =>
          cases u
          simpa [renderThread] using ih
      | error e => simp [renderThread]

/-- C2 as stated is false: already after a single `render()` failure
(surface lost) the loop is not running any more — the thread panicked. -/
theorem render_failure_stops_loop :
    renderThread [Except.error SurfaceError.lost] ≠ LoopStatus.running := by
  decide

/-! # Claim C4 -/

/-- C4: `resize(new_size)` with both components strictly positive commits
the new size to `size` and to the configured width/height; with a zero
component it is a no-op leaving the whole state (size, config
width/height, format, usage, present mode) exactly as before.  In
particular, after `resize(300, 80)` a subsequent `resize(0, 600)` leaves
the active configuration at (300, 80). -/
theorem resize_zero_noop (s : State) (ns : PhysicalSize) :
    (0 < ns.width ∧ 0 < ns.height →
      s.resize ns =
        { s with
          size := ns
          config := { s.config with width := ns.width, height := ns.height } }) ∧
    (¬ (0 < ns.width ∧ 0 < ns.height) → s.resize ns = s) ∧
    ((s.resize ⟨300, 80⟩).resize ⟨0, 600⟩).config.width = 300 ∧
    ((s.resize ⟨300, 80⟩).resize ⟨0, 600⟩).config.height = 80 ∧
    ((s.resize ⟨300, 80⟩).resize ⟨0, 600⟩).size = (⟨300, 80⟩ : PhysicalSize) := by
  refine ⟨fun hpos => ?_, fun hneg => ?_, ?_, ?_, ?_⟩
  · simp [State.resize, hpos]
  · simp [State.resize, hneg]
  · simp [State.resize]
  · simp [State.resize]
  · simp [State.resize]

theorem resize_zero_noop_witness :
    (0 < 300 ∧ 0 < 80) ∧
      (State.new (0, 0, 0) 0 ⟨200, 200⟩).resize ⟨300, 80⟩ =
        { State.new (0, 0, 0) 0 ⟨200, 200⟩ with
          size := (⟨300, 80⟩ : PhysicalSize)
          config :=
            { (State.new (0, 0, 0) 0 ⟨200, 200⟩).config with width := 300, height := 80 } } ∧
    ¬ (0 < 0 ∧ 0 < 600) ∧
      (State.new (0, 0, 0) 0 ⟨200, 200⟩).resize ⟨0, 600⟩ = State.new (0, 0, 0) 0 ⟨200, 200⟩ :=
  ⟨by decide,
    (resize_zero_noop (State.new (0, 0, 0) 0 ⟨200, 200⟩) ⟨300, 80⟩).1 (by decide),
    by decide,
    (resize_zero_noop (State.new (0, 0, 0) 0 ⟨200, 200⟩) ⟨0, 600⟩).2.1 (by decide)⟩

/-! # Claim C7 -/

theorem lastAppliedSize_cons (init ns : PhysicalSize) (rest : List PhysicalSize) :
    lastAppliedSize init (ns :: rest) =
      lastAppliedSize (if 0 < ns.width ∧ 0 < ns.height then ns else init) rest :=
  rfl

theorem runResizes_tracks (ops : List PhysicalSize) :
    ∀ s : State,
      s.config.width = s.size.width → s.config.height = s.size.height →
      (runResizes s ops).size = lastAppliedSize s.size ops ∧
      (runResizes s ops).config.width = (lastAppliedSize s.size ops).width ∧
      (runResizes s ops).config.height = (lastAppliedSize s.size ops).height := by
  induction ops with
  | nil =>
      intro s h1 h2
      exact ⟨rfl, h1, h2⟩
  | cons ns rest ih =>
      intro s h1 h2
      have hstep : runResizes s (ns :: rest) = runResizes (s.resize ns) rest := rfl
      have hsize : (s.resize ns).size =
          if 0 < ns.width ∧ 0 < ns.height then ns else s.size := by
        by_cases hp : 0 < ns.width ∧ 0 < ns.height
        · simp [State.resize, hp]
        · simp [State.resize, hp]
      have hcw : (s.resize ns).config.width = (s.resize ns).size.width := by
        by_cases hp : 0 < ns.width ∧ 0 < ns.height
        · simp [State.resize, hp]
        · simp [State.resize, hp, h1]
      have hch : (s.resize ns).config.height = (s.resize ns).size.height := by
        by_cases hp : 0 < ns.width ∧ 0 < ns.height
        · simp [State.resize, hp]
        · simp [State.resize, hp, h2]
      have hrec := ih (s.resize ns) hcw hch
      rw [hstep, lastAppliedSize_cons, ← hsize]
      exact hrec

theorem lastAppliedSize_pos (ops : List PhysicalSize) :
    ∀ init : PhysicalSize, 0 < init.width → 0 < init.height →
      0 < (lastAppliedSize init ops).width ∧ 0 < (lastAppliedSize init ops).height := by
  induction ops with
  | nil =>
      intro init h1 h2
      exact ⟨h1, h2⟩
  | cons ns rest ih =>
      intro init h1 h2
      rw [lastAppliedSize_cons]
      by_cases hp : 0 < ns.width ∧ 0 < ns.height
      · simpa [hp] using ih ns hp.1 hp.2
      · simpa [hp] using ih init h1 h2

/-- C7 (amended): provided the initial size passed to `create` is strictly
positive in both components (the program's only `create` call uses
(200, 200)), after creation and any sequence of `resize` calls the
configured width/height equal the size of the last successfully applied
geometry and are never zero. -/
theorem config_matches_last_applied (ids : Nat × Nat × Nat) (fmt : Nat)
    (init : PhysicalSize) (ops : List PhysicalSize)
    (hw : 0 < init.width) (hh : 0 < init.height) :
    (runResizes (State.new ids fmt init) ops).config.width
        = (lastAppliedSize init ops).width ∧
      (runResizes (State.new ids fmt init) ops).config.height
        = (lastAppliedSize init ops).height ∧
      0 < (runResizes (State.new ids fmt init) ops).config.width ∧
      0 < (runResizes (State.new ids fmt init) ops).config.height := by
  have ht := runResizes_tracks ops (State.new ids fmt init) rfl rfl
  have hp := lastAppliedSize_pos ops init hw hh
  exact ⟨ht.2.1, ht.2.2, by rw [ht.2.1]; exact hp.1, by rw [ht.2.2]; exact hp.2⟩

theorem config_matches_last_applied_witness :
    (0 < (200 : ℕ) ∧ 0 < (200 : ℕ)) ∧
      ((runResizes (State.new (0, 0, 0) 0 ⟨200, 200⟩) [⟨300, 80⟩]).config.width
          = (lastAppliedSize ⟨200, 200⟩ [⟨300, 80⟩]).width ∧
        (runResizes (State.new (0, 0, 0) 0 ⟨200, 200⟩) [⟨300, 80⟩]).config.height
          = (lastAppliedSize ⟨200, 200⟩ [⟨300, 80⟩]).height ∧
        0 < (runResizes (State.new (0, 0, 0) 0 ⟨200, 200⟩) [⟨300, 80⟩]).config.width ∧
        0 < (runResizes (State.new (0, 0, 0) 0 ⟨200, 200⟩) [⟨300, 80⟩]).config.height) :=
  ⟨by decide,
    config_matches_last_applied (0, 0, 0) 0 ⟨200, 200⟩ [⟨300, 80⟩] (by decide) (by decide)⟩

/-- C7 as stated is false: the claim quantifies over every sequence of
`create` and `resize` operations, but `State::new` has no zero guard — a
`create` with initial size (0, 600) leaves the configured width at 0 after
the first configuration. -/
theorem config_zero_create_counterexample :
    ¬ (0 < (runResizes (State.new (0, 0, 0) 0 ⟨0, 600⟩) []).config.width) := by
  decide

/-! # Lemmas about the owned-top-level variant -/

theorem wrap32_eq_of_bounds (z : Int) (h1 : -(2 ^ 31) ≤ z) (h2 : z ≤ 2 ^ 31 - 1) :
    wrap32 z = z := by
  unfold wrap32
  have hmod : (z + 2 ^ 31) % 2 ^ 32 = z + 2 ^ 31 :=
    Int.emod_eq_of_lt (by omega) (by omega)
  omega

theorem lastParentPos_of_no_posOp (ops : List WinOp) :
    ∀ init : Position, ¬ hasPosOp ops → lastParentPos init ops = init := by
  induction ops with
  | nil =>
      intro init h
      rfl
  | cons op rest ih =>
      intro init h
      cases op with
      | setParentPosition p => exact absurd trivial h
      | setOrigin p => exact absurd trivial h
      | setSize s => exact ih init h

theorem lastOriginPos_of_no_posOp (ops : List WinOp) :
    ∀ init : Position, ¬ hasPosOp ops → lastOriginPos init ops = init := by
  induction ops with
  | nil =>
      intro init h
      rfl
  | cons op rest ih =>
      intro init h
      cases op with
      | setParentPosition p => exact absurd trivial h
      | setOrigin p => exact absurd trivial h
      | setSize s => exact ih init h

/-- Running the handle calls on a live overlay window never panics when
every supplied position is physical, preserves liveness, leaves the stored
fields at the most recently supplied values, and — after any
position-affecting call — leaves the native window at the wrapped sum of
the stored origin and parent position. -/
theorem runWinOps_alive (ops : List WinOp) :
    ∀ w : WinWorld, w.alive = true →
      w.parent_pos.isPhysical → w.last_origin.isPhysical →
      (∀ op ∈ ops, op.physicalArgs) →
      ∃ w2 : WinWorld,
        runWinOps w ops = Except.ok w2 ∧
        w2.alive = true ∧
        w2.parent_pos = lastParentPos w.parent_pos ops ∧
        w2.last_origin = lastOriginPos w.last_origin ops ∧
        (¬ hasPosOp ops → w2.window.outer_position = w.window.outer_position) ∧
        (hasPosOp ops →
          ∃ o p : PhysicalPosition,
            w2.last_origin = Position.physical o ∧
            w2.parent_pos = Position.physical p ∧
            w2.window.outer_position =
              Position.physical { x := i32add o.x p.x, y := i32add o.y p.y }) := by
  induction ops with
  | nil =>
      intro w halive hpp hlo hops
      exact ⟨w, rfl, halive, rfl, rfl, fun _ => rfl, fun h => h.elim⟩
  | cons op rest ih =>
      intro w halive hpp hlo hops
      have hop := hops op (List.mem_cons_self op rest)
      have hrest : ∀ op2 ∈ rest, op2.physicalArgs :=
        fun op2 hm => hops op2 (List.mem_cons_of_mem op hm)
      cases op with
      | setOrigin q =>
          cases q with
          | logical ql => exact absurd hop id
          | physical qp =>
              rcases hparent : w.parent_pos with pp | pl
              case logical =>
                rw [hparent] at hpp
                exact hpp.elim
              case physical =>
                obtain ⟨w2, hr2, ha2, hp2, hl2, hnout2, hout2⟩ :=
                  ih
                    { w with
                      last_origin := Position.physical qp
                      window :=
                        { w.window with
                          outer_position :=
                            Position.physical
                              { x := i32add qp.x pp.x, y := i32add qp.y pp.y } } }
                    halive hpp trivial hrest
                have hstep : w.set_origin (Position.physical qp) =
                    Except.ok
                      { w with
                        last_origin := Position.physical qp
                        window :=
                          { w.window with
                            outer_position :=
                              Position.physical
                                { x := i32add qp.x pp.x, y := i32add qp.y pp.y } } } := by
                  simp [WinWorld.set_origin, halive, hparent]
                refine ⟨w2, ?_, ha2, ?_, ?_, fun hno => absurd trivial hno, fun _ => ?_⟩
                · show (match w.set_origin (Position.physical qp) with
                    | Except.ok w3 => runWinOps w3 rest
                    | Except.error e => Except.error e) = Except.ok w2
                  rw [hstep]
                  exact hr2
                · rw [hp2, hparent]
                  rfl
                · exact hl2
                · by_cases hpos : hasPosOp rest
                  · exact hout2 hpos
                  · refine ⟨qp, pp, ?_, ?_, ?_⟩
                    · rw [hl2, lastOriginPos_of_no_posOp rest _ hpos]
                    · rw [hp2, lastParentPos_of_no_posOp rest _ hpos, hparent]
                    · rw [hnout2 hpos]
      | setParentPosition q =>
          cases q with
          | logical ql => exact absurd hop id
          | physical qp =>
              rcases horigin : w.last_origin with lp | ll
              case logical =>
                rw [horigin] at hlo
                exact hlo.elim
              case physical =>
                obtain ⟨w2, hr2, ha2, hp2, hl2, hnout2, hout2⟩ :=
                  ih
                    { w with
                      parent_pos := Position.physical qp
                      last_origin := Position.physical lp
                      window :=
                        { w.window with
                          outer_position :=
                            Position.physical
                              { x := i32add lp.x qp.x, y := i32add lp.y qp.y } } }
                    halive trivial trivial hrest
                have hstep : w.set_parent_position (Position.physical qp) =
                    Except.ok
                      { w with
                        parent_pos := Position.physical qp
                        last_origin := Position.physical lp
                        window :=
                          { w.window with
                            outer_position :=
                              Position.physical
                                { x := i32add lp.x qp.x, y := i32add lp.y qp.y } } } := by
                  simp [WinWorld.set_parent_position, WinWorld.set_origin, halive, horigin]
                refine ⟨w2, ?_, ha2, ?_, ?_, fun hno => absurd trivial hno, fun _ => ?_⟩
                · show (match w.set_parent_position (Position.physical qp) with
                    | Except.ok w3 => runWinOps w3 rest
                    | Except.error e => Except.error e) = Except.ok w2
                  rw [hstep]
                  exact hr2
                · exact hp2
                · rw [hl2]
                  rfl
                · by_cases hpos : hasPosOp rest
                  · exact hout2 hpos
                  · refine ⟨lp, qp, ?_, ?_, ?_⟩
                    · rw [hl2, lastOriginPos_of_no_posOp rest _ hpos]
                    · rw [hp2, lastParentPos_of_no_posOp rest _ hpos]
                    · rw [hnout2 hpos]
      | setSize s =>
          obtain ⟨w2, hr2, ha2, hp2, hl2, hnout2, hout2⟩ :=
            ih { w with window := { w.window with inner_size := s } }
              halive hpp hlo hrest
          have hstep : w.set_size s =
              Except.ok { w with window := { w.window with inner_size := s } } := by
            simp [WinWorld.set_size, halive]
          refine ⟨w2, ?_, ha2, hp2, hl2, fun hno => hnout2 hno, fun hpos => hout2 hpos⟩
          show (match w.set_size s with
            | Except.ok w3 => runWinOps w3 rest
            | Except.error e => Except.error e) = Except.ok w2
          rw [hstep]
          exact hr2

/-- Running the handle calls on a `WinWorld` whose native window is gone
never panics and results in `deadRun`. -/
theorem runWinOps_dead (ops : List WinOp) :
    ∀ w : WinWorld, w.alive = false →
      runWinOps w ops = Except.ok (deadRun w ops) := by
  induction ops with
  | nil =>
      intro w hdead
      rfl
  | cons op rest ih =>
      intro w hdead
      cases op with
      | setParentPosition p =>
          have hstep : w.set_parent_position p =
              Except.ok { w with parent_pos := p } := by
            simp [WinWorld.set_parent_position, WinWorld.set_origin, hdead]
          have hrun : runWinOps w (WinOp.setParentPosition p :: rest) =
              runWinOps { w with parent_pos := p } rest := by
            simp [runWinOps, hstep]
          rw [hrun]
          exact ih _ hdead
      | setOrigin p =>
          have hstep : w.set_origin p = Except.ok w := by
            simp [WinWorld.set_origin, hdead]
          have hrun : runWinOps w (WinOp.setOrigin p :: rest) = runWinOps w rest := by
            simp [runWinOps, hstep]
          rw [hrun]
          exact ih _ hdead
      | setSize s =>
          have hstep : w.set_size s = Except.ok w := by
            simp [WinWorld.set_size, hdead]
          have hrun : runWinOps w (WinOp.setSize s :: rest) = runWinOps w rest := by
            simp [runWinOps, hstep]
          rw [hrun]
          exact ih _ hdead

theorem deadRun_window (ops : List WinOp) :
    ∀ w : WinWorld, (deadRun w ops).window = w.window := by
  induction ops with
  | nil => intro w; rfl
  | cons op rest ih =>
      intro w
      cases op with
      | setParentPosition p => exact ih _
      | setOrigin p => exact ih _
      | setSize s => exact ih _

theorem deadRun_last_origin (ops : List WinOp) :
    ∀ w : WinWorld, (deadRun w ops).last_origin = w.last_origin := by
  induction ops with
  | nil => intro w; rfl
  | cons op rest ih =>
      intro w
      cases op with
      | setParentPosition p => exact ih _
      | setOrigin p => exact ih _
      | setSize s => exact ih _

theorem deadRun_alive (ops : List WinOp) :
    ∀ w : WinWorld, (deadRun w ops).alive = w.alive := by
  induction ops with
  | nil => intro w; rfl
  | cons op rest ih =>
      intro w
      cases op with
      | setParentPosition p => exact ih _
      | setOrigin p => exact ih _
      | setSize s => exact ih _

theorem isPhysical_of_isSmallPhysical (p : Position) (h : p.isSmallPhysical) :
    p.isPhysical := by
  cases p with
  | physical q => trivial
  | logical q => exact h.elim

theorem physicalArgs_of_smallPosOp (op : WinOp) (h : op.smallPosOp) :
    op.physicalArgs := by
  cases op with
  | setParentPosition p => exact isPhysical_of_isSmallPhysical p h
  | setOrigin p => exact isPhysical_of_isSmallPhysical p h
  | setSize s => trivial

theorem lastParentPos_small (ops : List WinOp) :
    ∀ init : Position, init.isSmallPhysical →
      (∀ op ∈ ops, op.smallPosOp) →
      (lastParentPos init ops).isSmallPhysical := by
  induction ops with
  | nil =>
      intro init h _
      exact h
  | cons op rest ih =>
      intro init h hops
      have hop := hops op (List.mem_cons_self op rest)
      have hrest : ∀ op2 ∈ rest, op2.smallPosOp :=
        fun op2 hm => hops op2 (List.mem_cons_of_mem op hm)
      cases op with
      | setParentPosition p => exact ih p hop hrest
      | setOrigin p => exact ih init h hrest
      | setSize s => exact hop.elim

theorem lastOriginPos_small (ops : List WinOp) :
    ∀ init : Position, init.isSmallPhysical →
      (∀ op ∈ ops, op.smallPosOp) →
      (lastOriginPos init ops).isSmallPhysical := by
  induction ops with
  | nil =>
      intro init h _
      exact h
  | cons op rest ih =>
      intro init h hops
      have hop := hops op (List.mem_cons_self op rest)
      have hrest : ∀ op2 ∈ rest, op2.smallPosOp :=
        fun op2 hm => hops op2 (List.mem_cons_of_mem op hm)
      cases op with
      | setParentPosition p => exact ih init h hrest
      | setOrigin p => exact ih p hop hrest
      | setSize s => exact hop.elim

theorem hasPosOp_of_smallPosOps (ops : List WinOp) (hne : ops ≠ [])
    (hops : ∀ op ∈ ops, op.smallPosOp) : hasPosOp ops := by
  cases ops with
  | nil => exact absurd rfl hne
  | cons op rest =>
      have hop := hops op (List.mem_cons_self op rest)
      cases op with
      | setParentPosition p => trivial
      | setOrigin p => trivial
      | setSize s => exact hop.elim

/-! # Claim C5 -/

/-- C5: on a live overlay window, after any nonempty interleaved sequence
of `set_parent_position` / `set_origin` calls with (in-range) physical
positions, the screen origin applied to the overlay window equals the most
recently supplied local origin plus the most recently supplied parent
position, recomputed on every call; in particular the parent moving
(100, 100) → (150, 120) while the local origin stays (350, 100) moves the
applied screen origin (450, 200) → (500, 220). -/
theorem owned_origin_sum_invariant (w : WinWorld) (ops : List WinOp)
    (halive : w.alive = true)
    (hpp : w.parent_pos.isSmallPhysical)
    (hlo : w.last_origin.isSmallPhysical)
    (hops : ∀ op ∈ ops, op.smallPosOp)
    (hne : ops ≠ []) :
    (∃ (w2 : WinWorld) (o p : PhysicalPosition),
        runWinOps w ops = Except.ok w2 ∧
        lastOriginPos w.last_origin ops = Position.physical o ∧
        lastParentPos w.parent_pos ops = Position.physical p ∧
        w2.last_origin = Position.physical o ∧
        w2.parent_pos = Position.physical p ∧
        w2.window.outer_position = Position.physical { x := o.x + p.x, y := o.y + p.y }) ∧
      Except.map (fun w2 => w2.window.outer_position)
          (runWinOps winInit
            [WinOp.setOrigin (Position.physical ⟨350, 100⟩),
             WinOp.setParentPosition (Position.physical ⟨100, 100⟩)]) =
        Except.ok (Position.physical ⟨450, 200⟩) ∧
      Except.map (fun w2 => w2.window.outer_position)
          (runWinOps winInit
            [WinOp.setOrigin (Position.physical ⟨350, 100⟩),
             WinOp.setParentPosition (Position.physical ⟨100, 100⟩),
             WinOp.setParentPosition (Position.physical ⟨150, 120⟩)]) =
        Except.ok (Position.physical ⟨500, 220⟩) := by
  refine ⟨?_, rfl, rfl⟩
  have hphys : ∀ op ∈ ops, op.physicalArgs :=
    fun op hm => physicalArgs_of_smallPosOp op (hops op hm)
  obtain ⟨w2, hr, ha2, hp2, hl2, hnout, hout⟩ :=
    runWinOps_alive ops w halive (isPhysical_of_isSmallPhysical _ hpp)
      (isPhysical_of_isSmallPhysical _ hlo) hphys
  obtain ⟨o, p, ho, hp, hout2⟩ := hout (hasPosOp_of_smallPosOps ops hne hops)
  have hsmallo : (Position.physical o).isSmallPhysical := by
    rw [← ho, hl2]
    exact lastOriginPos_small ops w.last_origin hlo hops
  have hsmallp : (Position.physical p).isSmallPhysical := by
    rw [← hp, hp2]
    exact lastParentPos_small ops w.parent_pos hpp hops
  obtain ⟨hox, hoy⟩ : o.x.natAbs < 2 ^ 30 ∧ o.y.natAbs < 2 ^ 30 := hsmallo
  obtain ⟨hpx, hpy⟩ : p.x.natAbs < 2 ^ 30 ∧ p.y.natAbs < 2 ^ 30 := hsmallp
  have hx : i32add o.x p.x = o.x + p.x := by
    unfold i32add
    exact wrap32_eq_of_bounds _ (by omega) (by omega)
  have hy : i32add o.y p.y = o.y + p.y := by
    unfold i32add
    exact wrap32_eq_of_bounds _ (by omega) (by omega)
  exact ⟨w2, o, p, hr, by rw [← hl2, ho], by rw [← hp2, hp], ho, hp, by
    rw [hout2, hx, hy]⟩

theorem owned_origin_sum_invariant_witness :
    (winInit.alive = true ∧
      winInit.parent_pos.isSmallPhysical ∧
      winInit.last_origin.isSmallPhysical ∧
      (∀ op ∈ [WinOp.setOrigin (Position.physical ⟨350, 100⟩),
               WinOp.setParentPosition (Position.physical ⟨100, 100⟩)], op.smallPosOp) ∧
      ([WinOp.setOrigin (Position.physical ⟨350, 100⟩),
        WinOp.setParentPosition (Position.physical ⟨100, 100⟩)] : List WinOp) ≠ []) ∧
    ((∃ (w2 : WinWorld) (o p : PhysicalPosition),
        runWinOps winInit
            [WinOp.setOrigin (Position.physical ⟨350, 100⟩),
             WinOp.setParentPosition (Position.physical ⟨100, 100⟩)] = Except.ok w2 ∧
        lastOriginPos winInit.last_origin
            [WinOp.setOrigin (Position.physical ⟨350, 100⟩),
             WinOp.setParentPosition (Position.physical ⟨100, 100⟩)] = Position.physical o ∧
        lastParentPos winInit.parent_pos
            [WinOp.setOrigin (Position.physical ⟨350, 100⟩),
             WinOp.setParentPosition (Position.physical ⟨100, 100⟩)] = Position.physical p ∧
        w2.last_origin = Position.physical o ∧
        w2.parent_pos = Position.physical p ∧
        w2.window.outer_position = Position.physical { x := o.x + p.x, y := o.y + p.y }) ∧
      Except.map (fun w2 => w2.window.outer_position)
          (runWinOps winInit
            [WinOp.setOrigin (Position.physical ⟨350, 100⟩),
             WinOp.setParentPosition (Position.physical ⟨100, 100⟩)]) =
        Except.ok (Position.physical ⟨450, 200⟩) ∧
      Except.map (fun w2 => w2.window.outer_position)
          (runWinOps winInit
            [WinOp.setOrigin (Position.physical ⟨350, 100⟩),
             WinOp.setParentPosition (Position.physical ⟨100, 100⟩),
             WinOp.setParentPosition (Position.physical ⟨150, 120⟩)]) =
        Except.ok (Position.physical ⟨500, 220⟩)) :=
  ⟨⟨rfl, by decide, by decide, by decide, List.cons_ne_nil _ _⟩,
    owned_origin_sum_invariant winInit
      [WinOp.setOrigin (Position.physical ⟨350, 100⟩),
       WinOp.setParentPosition (Position.physical ⟨100, 100⟩)]
      rfl (by decide) (by decide) (by decide) (List.cons_ne_nil _ _)⟩

/-! # Claim C8 -/

/-- C8: if every position supplied to the owned-top-level variant
(including the initial stored values, which are physical (0, 0)) is
physical, no `set_parent_position` or `set_origin` call ever reaches the
`unimplemented!` logical-translation path: every call sequence completes
without panicking, whether or not the native window is still alive. -/
theorem physical_positions_no_panic (w : WinWorld) (ops : List WinOp)
    (hpp : w.parent_pos.isPhysical) (hlo : w.last_origin.isPhysical)
    (hops : ∀ op ∈ ops, op.physicalArgs) :
    ∃ w2 : WinWorld, runWinOps w ops = Except.ok w2 := by
  cases halive : w.alive with
  | true =>
      obtain ⟨w2, hr, -, -, -, -, -⟩ := runWinOps_alive ops w halive hpp hlo hops
      exact ⟨w2, hr⟩
  | false => exact ⟨deadRun w ops, runWinOps_dead ops w halive⟩

theorem physical_positions_no_panic_witness :
    (winInit.parent_pos.isPhysical ∧ winInit.last_origin.isPhysical ∧
      (∀ op ∈ [WinOp.setOrigin (Position.physical ⟨5, 6⟩),
               WinOp.setSize (Size.logical ⟨20, 10⟩),
               WinOp.setParentPosition (Position.physical ⟨7, 8⟩)], op.physicalArgs)) ∧
    ∃ w2 : WinWorld,
      runWinOps winInit
          [WinOp.setOrigin (Position.physical ⟨5, 6⟩),
           WinOp.setSize (Size.logical ⟨20, 10⟩),
           WinOp.setParentPosition (Position.physical ⟨7, 8⟩)] = Except.ok w2 :=
  ⟨⟨trivial, trivial, by decide⟩,
    physical_positions_no_panic winInit
      [WinOp.setOrigin (Position.physical ⟨5, 6⟩),
       WinOp.setSize (Size.logical ⟨20, 10⟩),
       WinOp.setParentPosition (Position.physical ⟨7, 8⟩)]
      trivial trivial (by decide)⟩

/-! # Claim C10 -/

/-- C10: when the owned overlay window has been destroyed, `set_origin`
and `set_size` leave the whole handle state (stored origin, stored parent
position, native window) unchanged, while `set_parent_position` still
records the new parent position (and changes nothing else); a later
`set_origin` that does find the window alive then applies the recorded
parent position. -/
theorem dead_window_state_effects (w : WinWorld) (o : Position) (s : Size)
    (p : Position) (hdead : w.alive = false) :
    w.set_origin o = Except.ok w ∧
    w.set_size s = Except.ok w ∧
    w.set_parent_position p = Except.ok { w with parent_pos := p } ∧
    (∀ pp op : PhysicalPosition,
      ({ w with parent_pos := Position.physical pp, alive := true } : WinWorld).set_origin
          (Position.physical op) =
        Except.ok
          { w with
            parent_pos := Position.physical pp
            alive := true
            last_origin := Position.physical op
            window :=
              { w.window with
                outer_position :=
                  Position.physical { x := i32add op.x pp.x, y := i32add op.y pp.y } } }) := by
  refine ⟨?_, ?_, ?_, fun pp op => ?_⟩
  · simp [WinWorld.set_origin, hdead]
  · simp [WinWorld.set_size, hdead]
  · simp [WinWorld.set_parent_position, WinWorld.set_origin, hdead]
  · simp [WinWorld.set_origin]

theorem dead_window_state_effects_witness :
    ({ winInit with alive := false } : WinWorld).alive = false ∧
    (({ winInit with alive := false } : WinWorld).set_origin
        (Position.physical ⟨1, 2⟩) = Except.ok { winInit with alive := false } ∧
      ({ winInit with alive := false } : WinWorld).set_size
        (Size.physical ⟨3, 4⟩) = Except.ok { winInit with alive := false } ∧
      ({ winInit with alive := false } : WinWorld).set_parent_position
        (Position.physical ⟨5, 6⟩) =
          Except.ok { { winInit with alive := false } with
            parent_pos := Position.physical ⟨5, 6⟩ } ∧
      (∀ pp op : PhysicalPosition,
        ({ { winInit with alive := false } with
            parent_pos := Position.physical pp, alive := true } : WinWorld).set_origin
            (Position.physical op) =
          Except.ok
            { { winInit with alive := false } with
              parent_pos := Position.physical pp
              alive := true
              last_origin := Position.physical op
              window :=
                { ({ winInit with alive := false } : WinWorld).window with
                  outer_position :=
                    Position.physical
                      { x := i32add op.x pp.x, y := i32add op.y pp.y } } })) :=
  ⟨rfl,
    dead_window_state_effects { winInit with alive := false }
      (Position.physical ⟨1, 2⟩) (Size.physical ⟨3, 4⟩) (Position.physical ⟨5, 6⟩) rfl⟩

/-! # Claim C6 -/

/-- C6 (amended): in the owned-top-level variant every operation on a
destroyed overlay window completes without failing and without touching
the native window — `set_origin`/`set_size` change nothing at all and
`set_parent_position` only records the parent position.  The
embedded-subview variant has no destroyed-handle guard: its operations
unconditionally dispatch a frame message to the stored native view
pointer even when the view has been destroyed. -/
theorem stale_handle_amended :
    (∀ (w : WinWorld) (ops : List WinOp), w.alive = false →
        runWinOps w ops = Except.ok (deadRun w ops) ∧
        (deadRun w ops).window = w.window ∧
        (deadRun w ops).last_origin = w.last_origin ∧
        (deadRun w ops).alive = false) ∧
    (∀ (m : MacWorld) (pos : Position) (size : Size), m.viewDestroyed = true →
        (m.set_origin pos).msgSends.length = m.msgSends.length + 1 ∧
        (m.set_size size).msgSends.length = m.msgSends.length + 1) := by
  constructor
  · intro w ops hdead
    exact ⟨runWinOps_dead ops w hdead, deadRun_window ops w, deadRun_last_origin ops w,
      by rw [deadRun_alive ops w]; exact hdead⟩
  · intro m pos size hdes
    constructor
    · simp [MacWorld.set_origin]
    · simp [MacWorld.set_size]

theorem stale_handle_amended_witness :
    (({ winInit with alive := false } : WinWorld).alive = false ∧
      ({ macInit with viewDestroyed := true } : MacWorld).viewDestroyed = true) ∧
    (runWinOps { winInit with alive := false }
          [WinOp.setOrigin (Position.physical ⟨1, 2⟩)] =
        Except.ok (deadRun { winInit with alive := false }
          [WinOp.setOrigin (Position.physical ⟨1, 2⟩)]) ∧
      (deadRun { winInit with alive := false }
          [WinOp.setOrigin (Position.physical ⟨1, 2⟩)]).window =
        ({ winInit with alive := false } : WinWorld).window ∧
      (deadRun { winInit with alive := false }
          [WinOp.setOrigin (Position.physical ⟨1, 2⟩)]).last_origin =
        ({ winInit with alive := false } : WinWorld).last_origin ∧
      (deadRun { winInit with alive := false }
          [WinOp.setOrigin (Position.physical ⟨1, 2⟩)]).alive = false) ∧
    ((({ macInit with viewDestroyed := true } : MacWorld).set_origin
          (Position.physical ⟨350, 100⟩)).msgSends.length =
        ({ macInit with viewDestroyed := true } : MacWorld).msgSends.length + 1 ∧
      (({ macInit with viewDestroyed := true } : MacWorld).set_size
          (Size.physical ⟨300, 80⟩)).msgSends.length =
        ({ macInit with viewDestroyed := true } : MacWorld).msgSends.length + 1) :=
  ⟨⟨rfl, rfl⟩,
    stale_handle_amended.1 { winInit with alive := false }
      [WinOp.setOrigin (Position.physical ⟨1, 2⟩)] rfl,
    stale_handle_amended.2 { macInit with viewDestroyed := true }
      (Position.physical ⟨350, 100⟩) (Size.physical ⟨300, 80⟩) rfl⟩

/-- C6 as stated is false for the embedded-subview variant: `set_origin`
on a destroyed view is not a silent no-op — it still dispatches
`setFrameOrigin` to the stored native view pointer, changing the world. -/
theorem stale_handle_counterexample :
    ¬ (({ macInit with viewDestroyed := true } : MacWorld).set_origin
          (Position.physical ⟨350, 100⟩) =
        { macInit with viewDestroyed := true }) := by
  intro hcl
  have hlen := congrArg (fun m => m.msgSends.length) hcl
  simp [MacWorld.set_origin, macInit] at hlen

/-! # Claim C9 -/

/-- C9: in the embedded-subview variant, `set_size` applies the width
component of its argument as both the width and the height of the child
view's frame (in the physical and in the logical arm alike); the height
component never influences the result. -/
theorem embedded_set_size_uses_width_twice (m : MacWorld) :
    (∀ s : Size,
        (m.set_size s).frame.sizeWidth = s.widthQ ∧
        (m.set_size s).frame.sizeHeight = s.widthQ ∧
        (m.set_size s).msgSends = m.msgSends ++ [MacMsg.setFrameSize s.widthQ s.widthQ]) ∧
    (∀ wd hd hd2 : ℕ,
        m.set_size (Size.physical ⟨wd, hd⟩) = m.set_size (Size.physical ⟨wd, hd2⟩)) ∧
    (∀ wq hq hq2 : ℚ,
        m.set_size (Size.logical ⟨wq, hq⟩) = m.set_size (Size.logical ⟨wq, hq2⟩)) := by
  refine ⟨fun s => ?_, fun wd hd hd2 => rfl, fun wq hq hq2 => rfl⟩
  cases s with
  | physical ps => exact ⟨rfl, rfl, rfl⟩
  | logical ls => exact ⟨rfl, rfl, rfl⟩

/-! # Claim C3 -/

/-- C3 is violated by the code: a single host Resized(1000, 800) event
leaves the embedded-subview variant with child frame size (300, 300) —
`MacosOverlayView::set_size` copies the width into the height — while the
owned-top-level variant's window gets inner size (300, 80); the two final
sizes differ (300 ≠ 80 in the height), so the variants do not end with the
same (origin, size) pair. -/
theorem variants_diverge_on_resize :
    ((macRunEvents (macInit, State.new (0, 0, 0) 0 ⟨200, 200⟩)
        [HostEvent.resized ⟨1000, 800⟩]).1.frame.sizeWidth = 300 ∧
      (macRunEvents (macInit, State.new (0, 0, 0) 0 ⟨200, 200⟩)
        [HostEvent.resized ⟨1000, 800⟩]).1.frame.sizeHeight = 300) ∧
    Except.map (fun st => st.1.window.inner_size)
        (winRunEvents (winInit, State.new (0, 0, 0) 0 ⟨200, 200⟩)
          [HostEvent.resized ⟨1000, 800⟩]) =
      Except.ok (Size.physical ⟨300, 80⟩) ∧
    (300 : ℚ) ≠ (80 : ℚ) := by
  refine ⟨⟨?_, ?_⟩, ?_, by norm_num⟩ <;>
    simp only [macRunEvents, macOnWindowEvent, winRunEvents, winOnWindowEvent,
      resizedGeometry_1000_800, MacWorld.set_origin, MacWorld.set_size,
      WinWorld.set_origin, WinWorld.set_size, macInit, winInit] <;>
    norm_num [Except.map]

end WgpuTauri
